import Mathlib

/-!
Verification of go-corset against its specification.

This file shallowly embeds the parts of the go-corset sources that the
claims under scrutiny are about:

* `pkg/schema/constraint/vanishing.go` — vanishing constraints and their
  acceptance check (`Accepts`, `HoldsGlobally`, `HoldsLocally`).
* `pkg/cmd/check.go` — `padAndCheckTrace`.
* `pkg/corset/resolver.go` — the declaration finalisation loop and the
  finalisers for `DefPermutation` and `DefInterleaved`.
* `pkg/mir/const.go` — constant propagation over MIR expressions.
* `pkg/hir/schema.go` — `AddDataColumn` and `AddLookupConstraint`.
* the trace alignment algorithm (`alignWith`).

Machine integers are modelled as `Nat`/`Int` with explicit `% 2 ^ 64`
wrapping where Go's `uint`/`int` conversions matter.  The scalar field of
BLS12-377 (gnark-crypto's `fr.Element`) is modelled as `ZMod frModulus`.
-/

namespace GoCorset

/-- The modulus of the BLS12-377 scalar field, which is the field of
gnark-crypto's `fr.Element` used throughout go-corset. -/
def frModulus : Nat :=
  8444461749428370424248824938781546531375899335154063827935233455917409239041

/-- Field elements (`fr.Element`). -/
abbrev F : Type := ZMod frModulus

/-- Go's conversion `uint64(i)` of a (signed, 64-bit) integer: reduce
modulo `2 ^ 64` into `[0, 2 ^ 64)`. -/
def uint64OfInt (i : Int) : Nat :=
  (i % (2 ^ 64 : Int)).toNat

/-- Go's conversion `int(k)` of a `uint64` value: reinterpret the low 64
bits as a two's-complement signed integer. -/
def toInt64 (n : Nat) : Int :=
  if n % 2 ^ 64 < 2 ^ 63 then ((n % 2 ^ 64 : Nat) : Int)
  else ((n % 2 ^ 64 : Nat) : Int) - 2 ^ 64

/-- `util.Bounds`: the well-definedness window of an expression.  The
expression can be evaluated on every row of `[Start, height - End)`. -/
structure Bounds where
  Start : Nat
  End : Nat

/-- `sc.Testable`, specialised to what the vanishing-constraint checker
uses: a test on a (signed) row index, plus bounds.  The trace argument of
the Go `TestAt(row int, tr trace.Trace)` is folded into the function. -/
structure Testable where
  testAt : Int → Bool
  bounds : Bounds

/-- `ZeroTest`: wraps an evaluable expression as a `Testable` by testing
that its value is zero (`val.IsZero()`).  Evaluation of the wrapped
expression on the trace is folded into `body : Int → F`. -/
def ZeroTest.ofBody (body : Int → F) (bounds : Bounds) : Testable :=
  { testAt := fun row => decide (body row = 0), bounds := bounds }

/-- `VanishingFailure`: handle and (unsigned) row of a failing vanishing
constraint.  (The `cells` field is always the empty slice in the source.) -/
structure VanishingFailure where
  handle : String
  row : Nat

/-- `HoldsLocally`: check a constraint at row `k : uint`, which Go passes
to `TestAt` as `int(k)`. -/
def HoldsLocally (k : Nat) (handle : String) (constraint : Testable) :
    Option VanishingFailure :=
  if constraint.testAt (toInt64 k) = false then some ⟨handle, k⟩ else none

/-- The loop body of `HoldsGlobally`: check the `n` consecutive rows
starting at `k`, returning the first failure.  This renders the Go loop
`for k := start; k < stop; k++` with `n = stop - start`. -/
def holdsOnRows (handle : String) (constraint : Testable) (k : Nat) :
    Nat → Option VanishingFailure
  | 0 => none
  | Nat.succ n =>
    match HoldsLocally k handle constraint with
    | some f => some f
    | none => holdsOnRows handle constraint (k + 1) n

/-- `HoldsGlobally`: check all rows `k ∈ [bounds.Start, height - bounds.End)`
of the enclosing module, guarded by `bounds.End < height`. -/
def HoldsGlobally (handle : String) (constraint : Testable) (height : Nat) :
    Option VanishingFailure :=
  if constraint.bounds.End < height then
    holdsOnRows handle constraint constraint.bounds.Start
      ((height - constraint.bounds.End) - constraint.bounds.Start)
  else none

/-- `VanishingConstraint`: handle, optional domain and testable body.  The
evaluation context is represented only through the `height` argument of
`Accepts` (Go's `tr.Height(p.context)`). -/
structure VanishingConstraint where
  handle : String
  domain : Option Int
  constraint : Testable

/-- `VanishingConstraint.Accepts`.  For a `nil` domain the constraint is
checked globally.  Otherwise the checked row is `start = uint(domain)` for
a non-negative domain and `start = height + uint(domain)` (in wrapping
`uint64` arithmetic) for a negative one. -/
def VanishingConstraint.Accepts (p : VanishingConstraint) (height : Nat) :
    Option VanishingFailure :=
  match p.domain with
  | none => HoldsGlobally p.handle p.constraint height
  | some d =>
    let start : Nat :=
      if d < 0 then (height + uint64OfInt d) % 2 ^ 64
      else uint64OfInt d
    HoldsLocally start p.handle p.constraint

/-- `padAndCheckTrace` from `pkg/cmd/check.go`.  The Go source reads

    var ptr trace.Trace = tr
    if n != 0 {
      ptr := tr.Clone()        // NB: shadows the outer ptr
      trace.PadColumns(ptr, n)
    }
    err := sc.Accepts(schema, ptr)
    return ptr, err

The inner `ptr` shadows the outer one, so the padded clone is discarded
and the check runs on the original trace.  `accepts` is `sc.Accepts`
partially applied to the schema; `padColumns tr n` is the value of the
clone after `trace.PadColumns` has mutated it. -/
def padAndCheckTrace {Trace Failure : Type} (accepts : Trace → Option Failure)
    (padColumns : Trace → Nat → Trace) (n : Nat) (tr : Trace) :
    Trace × Option Failure :=
  let ptr : Trace := tr
  let _shadowed : Option Trace := if n ≠ 0 then some (padColumns tr n) else none
  (ptr, accepts ptr)

/-!
The resolver's finalisation loop (`finaliseDeclarationsInModule` in
`pkg/corset/resolver.go`).  A declaration is modelled by the symbols it
depends on and the symbols it defines (finalises); symbols are numbered.
Resolution of unknown symbols and errors raised while finalising an
individual declaration are outside the claims under scrutiny, so the model
assumes every dependency symbol is bound and `finaliseDeclaration`
succeeds; consequently Go's `changed = changed || len(errs) == 0` sets
`changed` whenever a declaration is ready.
-/

/-- A declaration, reduced to its dependency symbols and the symbols it
finalises.  `DefColumns`-style declarations whose bindings are finalised
at initialisation time are modelled through the `init` argument of
`finaliseDeclarationsInModule` instead. -/
structure Decl where
  deps : List Nat
  defs : List Nat
deriving DecidableEq

/-- The two errors the finalisation loop can report. -/
inductive ResolveError where
  /-- `cyclic declaration`, pointing at the last declaration found
  not ready. -/
  | cyclicDeclaration (incomplete : Option Nat)
  /-- `unable to complete resolution`, reported when the iteration
  counter reaches zero. -/
  | incompleteResolution (incomplete : Option Nat)
deriving DecidableEq

/-- The state after one pass over the declarations. -/
structure PassResult where
  fin : List Nat
  changed : Bool
  complete : Bool
  incomplete : Option Nat
deriving DecidableEq

/-- One pass of the inner `for _, d := range decls` loop: a declaration is
ready iff all its dependencies are finalised; ready declarations are
finalised (their definitions added to `fin`) and set `changed`; a
declaration that is not ready clears `complete` and is recorded in
`incomplete` (by its index). -/
def passGo : List Decl → List Nat → Bool → Bool → Option Nat → Nat → PassResult
  | [], fin, changed, complete, incomplete, _ =>
    ⟨fin, changed, complete, incomplete⟩
  | d :: rest, fin, changed, complete, incomplete, idx =>
    if d.deps.all (fun s => fin.contains s) then
      passGo rest (fin ++ d.defs) true complete incomplete (idx + 1)
    else
      passGo rest fin changed false (some idx) (idx + 1)

/-- One pass over all declarations, starting from the finalised-symbol
set `fin`, with `changed := false`, `complete := true` as in the source. -/
def passDecls (decls : List Decl) (fin : List Nat) : PassResult :=
  passGo decls fin false true none 0

/-- The `for changed && !complete && counter > 0` loop, by recursion on
the counter.  On exit the source first checks `counter == 0` (reporting
`unable to complete resolution`), then `!complete` (reporting
`cyclic declaration`), and otherwise succeeds. -/
def finLoop (decls : List Decl) :
    Nat → List Nat → Bool → Bool → Option Nat → Option ResolveError
  | 0, _, _, _, incomplete => some (.incompleteResolution incomplete)
  | Nat.succ n, fin, changed, complete, incomplete =>
    if changed = true ∧ complete = false then
      let r := passDecls decls fin
      finLoop decls n r.fin r.changed r.complete
        (match r.incomplete with
         | some x => some x
         | none => incomplete)
    else if complete = false then some (.cyclicDeclaration incomplete)
    else none

/-- `finaliseDeclarationsInModule`: run the loop with `changed = true`,
`complete = false`, `incomplete = nil` and `counter = 4`.  `init` is the
set of symbols already finalised at initialisation time. -/
def finaliseDeclarationsInModule (decls : List Decl) (init : List Nat) :
    Option ResolveError :=
  finLoop decls 4 init true false none

/-- The finalised-symbol set after `k` passes. -/
def iterFin (decls : List Decl) (init : List Nat) : Nat → List Nat
  | 0 => init
  | Nat.succ k => (passDecls decls (iterFin decls init k)).fin

/-- The result of pass number `k` (counting from 0). -/
def passAt (decls : List Decl) (init : List Nat) (k : Nat) : PassResult :=
  passDecls decls (iterFin decls init k)

/-- The loop reaches pass `k`: every earlier pass made progress while
leaving some declaration unfinalised. -/
def reachPass (decls : List Decl) (init : List Nat) (k : Nat) : Prop :=
  ∀ j < k, (passAt decls init j).changed = true ∧
    (passAt decls init j).complete = false

instance (decls : List Decl) (init : List Nat) (k : Nat) :
    Decidable (reachPass decls init k) := by
  unfold reachPass; infer_instance

/-- Check that, processed in the order `ord`, each declaration's
dependencies are finalised by earlier declarations (or `fin`).  Used to
witness acyclicity of a dependency graph. -/
def chainCheck (decls : List Decl) : List Nat → List Nat → Bool
  | _, [] => true
  | fin, i :: rest =>
    match decls.get? i with
    | some d => d.deps.all (fun s => fin.contains s) &&
        chainCheck decls (fin ++ d.defs) rest
    | none => false

/-- `ord` enumerates every declaration index exactly once. -/
def isPermOfRange (n : Nat) (ord : List Nat) : Bool :=
  decide (ord.length = n) && (List.range n).all (fun i => ord.contains i)

/-- A topological order of the declarations, witnessing that their
dependency graph is acyclic. -/
def topoWitness (decls : List Decl) (init ord : List Nat) : Bool :=
  isPermOfRange decls.length ord && chainCheck decls init ord

/-!
MIR expressions (`pkg/mir`) and constant propagation (`pkg/mir/const.go`).
-/

/-- MIR expressions.  Column accesses carry the column index and shift;
their evaluation plays no role in constant propagation. -/
inductive Expr where
  | Constant (value : F)
  | ColumnAccess (column : Nat) (shift : Int)
  | Add (args : List Expr)
  | Sub (args : List Expr)
  | Mul (args : List Expr)
  | Exp (arg : Expr) (pow : Nat)
  | Normalise (arg : Expr)

/-- Extract the constant values of a list of expressions, or `none` if
some member is not a constant.  This is the final value of the running
`sum`/`prod` accumulators of the Go loops, which turn `nil` as soon as a
non-constant argument is met and otherwise accumulate every value. -/
def allConstants : List Expr → Option (List F)
  | [] => some []
  | Expr.Constant c :: rest => (allConstants rest).map (fun cs => c :: cs)
  | _ :: _ => none

/-- Whether an expression is the constant 0 (`c.Value.IsZero()` on a
constant argument). -/
def isZeroConstant : Expr → Bool
  | Expr.Constant c => decide (c = 0)
  | _ => false

/-- `applyConstantPropagationAdd`, after the recursive folding of the
arguments: if every argument is constant, produce the single constant
running sum (which Go accumulates left to right from 0), else rebuild. -/
def applyConstantPropagationAdd (rs : List Expr) : Expr :=
  match allConstants rs with
  | some cs => Expr.Constant (cs.foldl (fun a c => a + c) 0)
  | none => Expr.Add rs

/-- `applyConstantPropagationSub`, after the recursive folding of the
arguments: the running difference survives only if every argument is
constant and the list is non-empty (the accumulator starts `nil` and is
seeded by a constant in position 0). -/
def applyConstantPropagationSub (rs : List Expr) : Expr :=
  match allConstants rs with
  | some (c :: cs) => Expr.Constant (cs.foldl (fun a x => a - x) c)
  | _ => Expr.Sub rs

/-- `applyConstantPropagationMul`, after the recursive folding of the
arguments: the loop returns the constant 0 as soon as some argument is
the constant 0; otherwise, if every argument is constant it produces the
running product (accumulated from 1), else rebuilds. -/
def applyConstantPropagationMul (rs : List Expr) : Expr :=
  if rs.any isZeroConstant then Expr.Constant 0
  else
    match allConstants rs with
    | some cs => Expr.Constant (cs.foldl (fun a c => a * c) 1)
    | none => Expr.Mul rs

/-- `applyConstantPropagationExp`, after folding the argument.
`util.Pow` is not among the sources; modelled from the spec:
"`Exp` of a constant folds via repeated squaring", i.e. it computes the
`pow`-th power in `F`. -/
def applyConstantPropagationExp (arg : Expr) (pow : Nat) : Expr :=
  match arg with
  | Expr.Constant c => Expr.Constant (c ^ pow)
  | _ => Expr.Exp arg pow

/-- `applyConstantPropagationNorm`, after folding the argument:
a constant `c` normalises to 0 if `c = 0` and to 1 otherwise. -/
def applyConstantPropagationNorm (arg : Expr) : Expr :=
  match arg with
  | Expr.Constant c => Expr.Constant (if c = 0 then 0 else 1)
  | _ => Expr.Normalise arg

mutual

/-- `applyConstantPropagation` (`pkg/mir/const.go`): collapse constant
sub-expressions to single constants. -/
def applyConstantPropagation : Expr → Expr
  | Expr.Constant c => Expr.Constant c
  | Expr.ColumnAccess c s => Expr.ColumnAccess c s
  | Expr.Add args => applyConstantPropagationAdd (acpList args)
  | Expr.Sub args => applyConstantPropagationSub (acpList args)
  | Expr.Mul args => applyConstantPropagationMul (acpList args)
  | Expr.Exp arg pow => applyConstantPropagationExp (applyConstantPropagation arg) pow
  | Expr.Normalise arg => applyConstantPropagationNorm (applyConstantPropagation arg)

/-- Fold each argument in turn (the `rs[i] = applyConstantPropagation(e)`
part of the Go loops). -/
def acpList : List Expr → List Expr
  | [] => []
  | e :: es => applyConstantPropagation e :: acpList es

end

/-!
Column types and bindings (`pkg/corset` / `pkg/schema`).
-/

/-- Column types: an unsigned integer type of a given bit width, or the
field type. -/
inductive SchemaType where
  | uintT (nbits : Nat)
  | fieldT
deriving DecidableEq

/-- `Type.AsUint`: the fixed-width view of a type, `none` for the field
type. -/
def SchemaType.AsUint : SchemaType → Option Nat
  | SchemaType.uintT n => some n
  | SchemaType.fieldT => none

/-- `Type.AsField`: the field view of a type, `none` for fixed-width
types. -/
def SchemaType.AsField : SchemaType → Option Unit
  | SchemaType.uintT _ => none
  | SchemaType.fieldT => some ()

/-- `schema.Join` is not among the sources.  Modelled from the spec: the
join of two column types is the widest type able to hold an element of
either, so two fixed-width types join to the larger width and the field
type absorbs everything. -/
def Join : SchemaType → SchemaType → SchemaType
  | SchemaType.uintT a, SchemaType.uintT b => SchemaType.uintT (max a b)
  | _, _ => SchemaType.fieldT

/-- The part of a corset `ColumnBinding` that `DefPermutation` and
`DefInterleaved` finalisation reads and writes: length multiplier and
data type. -/
structure ColumnBinding where
  multiplier : Nat
  dataType : SchemaType
deriving DecidableEq

/-- Errors reported by `finaliseDefPermutationInModule`, tagged with the
index of the offending source column. -/
inductive PermError where
  | fixedWidthRequired (i : Nat)
  | incompatibleMultiplier (i : Nat)
deriving DecidableEq

/-- The `for i := 0; i < len(decl.Sources); i++` loop of
`finaliseDefPermutationInModule`: at index 0 a non-fixed-width source is
an error (leaving the reference multiplier at 0), otherwise index 0 seeds
the reference multiplier; later indices whose multiplier differs from the
reference are errors.  Every target receives its paired source's
multiplier and data type, errors notwithstanding. -/
def permGo : Nat → Nat → List ColumnBinding → List PermError × List ColumnBinding
  | _, _, [] => ([], [])
  | 0, multiplier, src :: rest =>
    if src.dataType.AsUint = none then
      (PermError.fixedWidthRequired 0 :: (permGo 1 multiplier rest).1,
        ⟨src.multiplier, src.dataType⟩ :: (permGo 1 multiplier rest).2)
    else
      ((permGo 1 src.multiplier rest).1,
        ⟨src.multiplier, src.dataType⟩ :: (permGo 1 src.multiplier rest).2)
  | i + 1, multiplier, src :: rest =>
    if multiplier ≠ src.multiplier then
      (PermError.incompatibleMultiplier (i + 1) :: (permGo (i + 2) multiplier rest).1,
        ⟨src.multiplier, src.dataType⟩ :: (permGo (i + 2) multiplier rest).2)
    else
      ((permGo (i + 2) multiplier rest).1,
        ⟨src.multiplier, src.dataType⟩ :: (permGo (i + 2) multiplier rest).2)

/-- `finaliseDefPermutationInModule` (`pkg/corset/resolver.go`): returns
the reported errors together with the per-position updated target
bindings (the sources are assumed paired with targets of equal number, as
the caller guarantees). -/
def finaliseDefPermutationInModule (sources : List ColumnBinding) :
    List PermError × List ColumnBinding :=
  permGo 0 0 sources

/-- The reference multiplier that later sources of a permutation are
compared against: the first source's multiplier when it is fixed-width,
and the initial value 0 otherwise. -/
def refMultiplier (sources : List ColumnBinding) : Nat :=
  match sources with
  | [] => 0
  | s0 :: _ => if s0.dataType.AsUint = none then 0 else s0.multiplier

/-- Errors reported by `finaliseDefInterleavedInModule`. -/
inductive InterleaveError where
  | incompatibleMultiplier (i : Nat)
deriving DecidableEq

/-- The tail of the `for i, source := range decl.Sources` loop of
`finaliseDefInterleavedInModule` (indices `i ≥ 1`): sources whose
multiplier differs from the first source's are errors, and the running
data type is joined with each source's type. -/
def interleaveGo (i multiplier : Nat) (datatype : SchemaType) :
    List ColumnBinding → List InterleaveError × SchemaType
  | [] => ([], datatype)
  | b :: rest =>
    if b.multiplier ≠ multiplier then
      (InterleaveError.incompatibleMultiplier i ::
          (interleaveGo (i + 1) multiplier (Join datatype b.dataType) rest).1,
        (interleaveGo (i + 1) multiplier (Join datatype b.dataType) rest).2)
    else interleaveGo (i + 1) multiplier (Join datatype b.dataType) rest

/-- `finaliseDefInterleavedInModule` (`pkg/corset/resolver.go`): index 0
seeds the length multiplier and data type (which is immediately joined
with itself); when no error arose, the target binding receives the
multiplier `m × |sources|` and the joined type, otherwise it is left
unchanged.  The empty-source case cannot arise from the grammar (the Go
code would leave a `nil` data type); the model leaves the target's type
unchanged there. -/
def finaliseDefInterleavedInModule (target : ColumnBinding)
    (sources : List ColumnBinding) : List InterleaveError × ColumnBinding :=
  match sources with
  | [] => ([], { target with multiplier := 0 })
  | s0 :: rest =>
    if (interleaveGo 1 s0.multiplier (Join s0.dataType s0.dataType) rest).1 = [] then
      ((interleaveGo 1 s0.multiplier (Join s0.dataType s0.dataType) rest).1,
        ⟨s0.multiplier * (s0 :: rest).length,
          (interleaveGo 1 s0.multiplier (Join s0.dataType s0.dataType) rest).2⟩)
    else ((interleaveGo 1 s0.multiplier (Join s0.dataType s0.dataType) rest).1, target)

/-!
The HIR schema (`pkg/hir/schema.go`): `AddDataColumn` and
`AddLookupConstraint`.  Go panics are modelled as `none`.
-/

/-- `trace.Context`: enclosing module and length multiplier. -/
structure TrContext where
  module : Nat
  multiplier : Nat
deriving DecidableEq

/-- `Context.Module()`. -/
def TrContext.Module (c : TrContext) : Nat := c.module

/-- `assignment.DataColumn`: context, name and type of a data column. -/
structure DataColumn where
  context : TrContext
  name : String
  datatype : SchemaType
deriving DecidableEq

/-- HIR expressions are irrelevant to the schema-level claims; a
`UnitExpr` is kept opaque. -/
abbrev UnitExpr : Type := Nat

/-- Schema constraints, as far as the claims need them: lookup
constraints carry handle, contexts and the two expression lists. -/
inductive SConstraint where
  | lookup (handle : String) (source target : TrContext)
      (sources targets : List UnitExpr)
deriving DecidableEq

/-- The HIR `Schema`, restricted to the fields the claims touch. -/
structure HirSchema where
  modules : List String
  inputs : List DataColumn
  constraints : List SConstraint
deriving DecidableEq

/-- `Schema.AddDataColumn`: panics (`none`) when the context's module
index is out of range; otherwise appends a new data column and returns
its column index `len(p.inputs)`. -/
def HirSchema.AddDataColumn (p : HirSchema) (context : TrContext)
    (name : String) (base : SchemaType) : Option (Nat × HirSchema) :=
  if p.modules.length ≤ context.Module then none
  else
    some (p.inputs.length,
      { p with inputs := p.inputs ++ [⟨context, name, base⟩] })

/-- `Schema.AddLookupConstraint`: panics (`none`) when the number of
target expressions differs from the number of source expressions;
otherwise appends one lookup constraint. -/
def HirSchema.AddLookupConstraint (p : HirSchema) (handle : String)
    (source target : TrContext) (sources targets : List UnitExpr) :
    Option HirSchema :=
  if targets.length ≠ sources.length then none
  else
    some { p with constraints :=
      p.constraints ++ [SConstraint.lookup handle source target sources targets] }

/-!
Trace alignment (`alignWith`).  The trace container operations
(`Modules().Get/IndexOf/Add/Swap`, `Columns().Get/IndexOf/Swap`) live in
the trace package, which is not among the sources; they are modelled from
the spec's trace description ("a mapping from qualified column names to a
value array plus the module→height table") as list operations, with any
out-of-range indexing rendered as the distinguished outcome `crash`
(whose behaviour the available sources do not determine).  Swapping two
modules renumbers the module references of the columns accordingly.
-/

/-- An entry of the trace's module table. -/
structure TraceModule where
  name : String
  height : Nat
deriving DecidableEq

/-- A trace column: enclosing module (by index into the module table) and
name.  The value array plays no role in alignment. -/
structure TraceColumn where
  module : Nat
  name : String
deriving DecidableEq

/-- A trace: module table plus columns. -/
structure Trace where
  modules : List TraceModule
  columns : List TraceColumn
deriving DecidableEq

/-- Swap two in-range positions of a list (`none` when out of range). -/
def listSwap {α : Type} (l : List α) (i j : Nat) : Option (List α) :=
  match l.get? i, l.get? j with
  | some a, some b => some ((l.set i b).set j a)
  | _, _ => none

/-- Renumber a column's module reference under a swap of modules `i` and
`j`. -/
def swapModuleRef (i j : Nat) (c : TraceColumn) : TraceColumn :=
  if c.module = i then { c with module := j }
  else if c.module = j then { c with module := i }
  else c

/-- `Modules().Swap`: swap two entries of the module table, renumbering
column references. -/
def traceSwapModules (tr : Trace) (i j : Nat) : Option Trace :=
  match listSwap tr.modules i j with
  | some ms =>
    some { modules := ms, columns := tr.columns.map (swapModuleRef i j) }
  | none => none

/-- Search loop of `Modules().IndexOf`. -/
def modulesIndexOfGo (name : String) : List TraceModule → Nat → Option Nat
  | [], _ => none
  | tm :: rest, i =>
    if tm.name = name then some i else modulesIndexOfGo name rest (i + 1)

/-- `Modules().IndexOf`: the index of the module with a given name. -/
def modulesIndexOf (mods : List TraceModule) (name : String) : Option Nat :=
  modulesIndexOfGo name mods 0

/-- Search loop of `Columns().IndexOf`. -/
def columnsIndexOfGo (module : Nat) (name : String) :
    List TraceColumn → Nat → Option Nat
  | [], _ => none
  | c :: rest, i =>
    if c.module = module ∧ c.name = name then some i
    else columnsIndexOfGo module name rest (i + 1)

/-- `Columns().IndexOf`: the index of the column with a given module
index and name. -/
def columnsIndexOf (cols : List TraceColumn) (module : Nat) (name : String) :
    Option Nat :=
  columnsIndexOfGo module name cols 0

/-- Alignment errors, all of which concern columns. -/
inductive AlignError where
  /-- `trace missing column m.c (too few columns)` -/
  | missingColumnFew (module name : String)
  /-- `trace missing column m.c` -/
  | missingColumn (module name : String)
  /-- `trace contains unknown columns: …` -/
  | unknownColumns (names : List String)
deriving DecidableEq

/-- Outcome of alignment: success with the realigned trace, a returned
alignment error, or a crash (a Go panic, or container behaviour the
sources leave undetermined). -/
inductive AlignOutcome where
  | ok (tr : Trace)
  | fail (e : AlignError)
  | crash
deriving DecidableEq

/-- The module-alignment loop of `alignWith`: for each schema module (at
position `modIndex`), when the trace module at `modIndex` does not carry
its name, the module is looked up by name; a module missing from the
trace is added with height 0 at the end, a module found at an earlier
position is a panic (`internal failure`), and in either case the found or
added module is swapped into place. -/
def alignModules (schemaMods : List String) (modIndex : Nat) (tr : Trace) :
    Option Trace :=
  match schemaMods with
  | [] => some tr
  | m :: rest =>
    match tr.modules.get? modIndex with
    | none => none
    | some traceMod =>
      if traceMod.name = m then alignModules rest (modIndex + 1) tr
      else
        match modulesIndexOf tr.modules m with
        | none =>
          let tr' : Trace := { tr with modules := tr.modules ++ [⟨m, 0⟩] }
          match traceSwapModules tr' modIndex tr.modules.length with
          | some tr'' => alignModules rest (modIndex + 1) tr''
          | none => none
        | some k =>
          if k < modIndex then none
          else
            match traceSwapModules tr modIndex k with
            | some tr'' => alignModules rest (modIndex + 1) tr''
            | none => none

/-- A schema declaration, as alignment sees it: whether it is computed,
and its columns (module index paired with name). -/
structure SchemaDecl where
  computed : Bool
  columns : List (Nat × String)
deriving DecidableEq

/-- The schema, as alignment sees it. -/
structure AlignSchema where
  modules : List String
  decls : List SchemaDecl
deriving DecidableEq

/-- The schema columns visited by the column-alignment loop: those of
every declaration when `expand` is set, else only those of non-computed
declarations. -/
def schemaColumns (expand : Bool) (s : AlignSchema) : List (Nat × String) :=
  (s.decls.filter (fun d => expand || !d.computed)).flatMap (fun d => d.columns)

/-- The column-alignment loop of `alignWith`: each schema column must sit
at position `colIndex` of the trace; a misplaced column is looked up by
(module, name) and swapped into place, a column that cannot be found is a
returned error, and trace columns left over at the end are the
`unknown columns` error. -/
def alignColumns (schemaMods : List String) (tr : Trace) (ncols : Nat)
    (colIndex : Nat) : List (Nat × String) → AlignOutcome
  | [] =>
    if colIndex = ncols then AlignOutcome.ok tr
    else AlignOutcome.fail
      (AlignError.unknownColumns ((tr.columns.drop colIndex).map (fun c => c.name)))
  | (smod, sname) :: rest =>
    match schemaMods.get? smod with
    | none => AlignOutcome.crash
    | some smodName =>
      if ncols ≤ colIndex then
        AlignOutcome.fail (AlignError.missingColumnFew smodName sname)
      else
        match tr.columns.get? colIndex with
        | none => AlignOutcome.crash
        | some traceCol =>
          match tr.modules.get? traceCol.module with
          | none => AlignOutcome.crash
          | some traceMod =>
            if traceCol.name = sname ∧ traceMod.name = smodName then
              alignColumns schemaMods tr ncols (colIndex + 1) rest
            else
              match columnsIndexOf tr.columns smod sname with
              | none => AlignOutcome.fail (AlignError.missingColumn smodName sname)
              | some k =>
                match listSwap tr.columns colIndex k with
                | some cols' =>
                  alignColumns schemaMods { tr with columns := cols' } ncols
                    (colIndex + 1) rest
                | none => AlignOutcome.crash

/-- `alignWith` (module phase followed by column phase; `ncols` is the
column count taken at entry, which the module phase does not change). -/
def alignWith (expand : Bool) (tr : Trace) (schema : AlignSchema) :
    AlignOutcome :=
  match alignModules schema.modules 0 tr with
  | none => AlignOutcome.crash
  | some tr' =>
    alignColumns schema.modules tr' tr.columns.length 0
      (schemaColumns expand schema)

/-!
Theorems.
-/

/-- C4: `padAndCheckTrace(n, tr, schema)` pads a cloned trace that the
inner variable shadowing then discards, so the acceptance check runs on
the original unpadded trace: the result equals `(tr, Accepts(schema, tr))`
and is therefore identical for every padding amount `n > 0`. -/
theorem padAndCheckTrace_ignores_padding :
    ∀ {Trace Failure : Type} (accepts : Trace → Option Failure)
      (padColumns : Trace → Nat → Trace) (n : Nat) (tr : Trace),
      padAndCheckTrace accepts padColumns n tr = (tr, accepts tr) := by
  intro Trace Failure accepts padColumns n tr
  rfl

/-- C9: `AddLookupConstraint` fails fatally exactly when the source and
target expression counts differ, and otherwise appends exactly one lookup
constraint, leaving the rest of the schema unchanged. -/
theorem add_lookup_constraint_spec :
    ∀ (p : HirSchema) (handle : String) (source target : TrContext)
      (sources targets : List UnitExpr),
      (HirSchema.AddLookupConstraint p handle source target sources targets = none
        ↔ targets.length ≠ sources.length)
      ∧ (∀ q, HirSchema.AddLookupConstraint p handle source target sources targets
            = some q →
          q.modules = p.modules ∧ q.inputs = p.inputs ∧
          q.constraints = p.constraints ++
            [SConstraint.lookup handle source target sources targets]) := by
  intro p handle source target sources targets
  unfold HirSchema.AddLookupConstraint
  by_cases h : targets.length ≠ sources.length
  · simp [h]
  · simp only [if_neg h]
    constructor
    · simp [h]
    · intro q hq
      cases hq
      exact ⟨rfl, rfl, rfl⟩

/-- Witness for C9 at a concrete schema: one lookup with one source and
one target expression is appended. -/
theorem add_lookup_constraint_spec_witness :
    (HirSchema.AddLookupConstraint ⟨["m"], [], []⟩ "l" ⟨0, 1⟩ ⟨0, 1⟩ [7] [9]
      = some ⟨["m"], [], [SConstraint.lookup "l" ⟨0, 1⟩ ⟨0, 1⟩ [7] [9]]⟩)
    ∧ ([SConstraint.lookup "l" ⟨0, 1⟩ ⟨0, 1⟩ [7] [9]] : List SConstraint).length = 1
    ∧ (⟨["m"], [], [SConstraint.lookup "l" ⟨0, 1⟩ ⟨0, 1⟩ [7] [9]]⟩ : HirSchema).constraints
      = ([] : List SConstraint) ++ [SConstraint.lookup "l" ⟨0, 1⟩ ⟨0, 1⟩ [7] [9]] := by
  refine ⟨by decide, by decide, ?_⟩
  exact ((add_lookup_constraint_spec ⟨["m"], [], []⟩ "l" ⟨0, 1⟩ ⟨0, 1⟩ [7] [9]).2
    ⟨["m"], [], [SConstraint.lookup "l" ⟨0, 1⟩ ⟨0, 1⟩ [7] [9]]⟩ (by decide)).2.2

/-- C7 counterexample: `AddDataColumn` performs no name-collision check:
on a schema that already holds a column named `x` in module 0, adding
another column named `x` in module 0 succeeds, contradicting the claim
that it fails. -/
theorem add_data_column_counterexample :
    (∃ c ∈ (⟨["m"], [⟨⟨0, 1⟩, "x", SchemaType.fieldT⟩], []⟩ : HirSchema).inputs,
      c.name = "x" ∧ c.context.Module = 0)
    ∧ HirSchema.AddDataColumn ⟨["m"], [⟨⟨0, 1⟩, "x", SchemaType.fieldT⟩], []⟩
        ⟨0, 1⟩ "x" SchemaType.fieldT ≠ none := by
  constructor
  · exact ⟨⟨⟨0, 1⟩, "x", SchemaType.fieldT⟩, by decide, rfl, rfl⟩
  · decide

/-- C7 amended: `AddDataColumn` fails exactly when the context's module
index is out of range; otherwise it appends the new data column and
returns its column index, with no name-collision check. -/
theorem add_data_column_amended :
    ∀ (p : HirSchema) (context : TrContext) (name : String) (base : SchemaType),
      (HirSchema.AddDataColumn p context name base = none
        ↔ p.modules.length ≤ context.Module)
      ∧ (context.Module < p.modules.length →
          HirSchema.AddDataColumn p context name base =
            some (p.inputs.length,
              { p with inputs := p.inputs ++ [⟨context, name, base⟩] })) := by
  intro p context name base
  unfold HirSchema.AddDataColumn
  by_cases h : p.modules.length ≤ context.Module
  · simp [h]
  · constructor
    · simp [h]
    · intro _
      simp [h]

/-- Witness for C7 at a concrete schema: adding a column to module 0 of a
one-module schema succeeds with column index 0, while module index 1 is
rejected. -/
theorem add_data_column_amended_witness :
    ((0 : Nat) < (⟨["m"], [], []⟩ : HirSchema).modules.length)
    ∧ (HirSchema.AddDataColumn ⟨["m"], [], []⟩ ⟨0, 1⟩ "x" SchemaType.fieldT
        = some (0, ⟨["m"], [⟨⟨0, 1⟩, "x", SchemaType.fieldT⟩], []⟩))
    ∧ (HirSchema.AddDataColumn ⟨["m"], [], []⟩ ⟨1, 1⟩ "x" SchemaType.fieldT = none
        ↔ (⟨["m"], [], []⟩ : HirSchema).modules.length ≤ (1 : Nat)) := by
  refine ⟨by decide, ?_, ?_⟩
  · exact (add_data_column_amended ⟨["m"], [], []⟩ ⟨0, 1⟩ "x" SchemaType.fieldT).2
      (by decide)
  · exact (add_data_column_amended ⟨["m"], [], []⟩ ⟨1, 1⟩ "x" SchemaType.fieldT).1
/-- Helper: every target binding receives its paired source's multiplier
and data type, whatever errors arise. -/
theorem permGo_targets (l : List ColumnBinding) :
    ∀ i m, (permGo i m l).2 = l := by
  induction l with
  | nil => intro i m; cases i <;> rfl
  | cons src rest ih =>
    intro i m
    match i with
    | 0 =>
      by_cases h : src.dataType.AsUint = none
      · simp [permGo, if_pos h, ih]
      · simp [permGo, if_neg h, ih]
    | Nat.succ n =>
      by_cases h : m ≠ src.multiplier
      · simp [permGo, if_pos h, ih]
      · simp [permGo, if_neg h, ih]

/-- Helper: from index 1 onwards the permutation loop never reports
`fixed-width type required`. -/
theorem permGo_no_fixedWidth (l : List ColumnBinding) :
    ∀ n m j, PermError.fixedWidthRequired j ∉ (permGo (n + 1) m l).1 := by
  induction l with
  | nil => intro n m j; simp [permGo]
  | cons src rest ih =>
    intro n m j
    by_cases h : m ≠ src.multiplier
    · simp only [permGo, if_pos h, List.mem_cons, not_or]
      exact ⟨by simp, ih (n + 1) m j⟩
    · simp only [permGo, if_neg h]
      exact ih (n + 1) m j

/-- Helper: from index 1 onwards, `incompatible length multiplier` is
reported at absolute index `j` exactly when the source at relative
position `j - (n + 1)` has a multiplier different from the reference. -/
theorem permGo_incompatible_mem (l : List ColumnBinding) :
    ∀ n m j,
      (PermError.incompatibleMultiplier j ∈ (permGo (n + 1) m l).1 ↔
        ∃ s, l.get? (j - (n + 1)) = some s ∧ n + 1 ≤ j ∧ s.multiplier ≠ m) := by
  induction l with
  | nil =>
    intro n m j
    simp [permGo]
  | cons src rest ih =>
    intro n m j
    have hrec := ih (n + 1) m j
    by_cases h : m ≠ src.multiplier
    · simp only [permGo, if_pos h, List.mem_cons]
      constructor
      · rintro (heq | hmem)
        · cases heq
          exact ⟨src, by simp [Nat.sub_self], le_refl _, fun hc => h hc.symm⟩
        · obtain ⟨s, hs, hij, hsm⟩ := hrec.mp hmem
          refine ⟨s, ?_, by omega, hsm⟩
          have hidx : j - (n + 1) = (j - (n + 2)) + 1 := by omega
          rw [hidx]
          simpa using hs
      · rintro ⟨s, hs, hij, hsm⟩
        by_cases hji : j = n + 1
        · subst hji
          left
          rfl
        · right
          apply hrec.mpr
          refine ⟨s, ?_, by omega, hsm⟩
          have hidx : j - (n + 1) = (j - (n + 2)) + 1 := by omega
          rw [hidx] at hs
          simpa using hs
    · push_neg at h
      have hcond : ¬(m ≠ src.multiplier) := by simp [h]
      simp only [permGo, if_neg hcond]
      constructor
      · intro hmem
        obtain ⟨s, hs, hij, hsm⟩ := hrec.mp hmem
        refine ⟨s, ?_, by omega, hsm⟩
        have hidx : j - (n + 1) = (j - (n + 2)) + 1 := by omega
        rw [hidx]
        simpa using hs
      · rintro ⟨s, hs, hij, hsm⟩
        apply hrec.mpr
        by_cases hji : j = n + 1
        · subst hji
          rw [Nat.sub_self] at hs
          simp only [List.get?_cons_zero, Option.some.injEq] at hs
          subst hs
          exact absurd h.symm hsm
        · refine ⟨s, ?_, by omega, hsm⟩
          have hidx : j - (n + 1) = (j - (n + 2)) + 1 := by omega
          rw [hidx] at hs
          simpa using hs

/-- C6 counterexample: with a fixed-width first source and a field-typed
second source (equal multipliers), `finaliseDefPermutationInModule`
reports no error at all, contradicting the claim that an error is
reported whenever any source's type is not fixed-width. -/
theorem def_permutation_finalise_counterexample :
    (∃ s ∈ ([⟨1, SchemaType.uintT 8⟩, ⟨1, SchemaType.fieldT⟩] : List ColumnBinding),
      s.dataType.AsUint = none)
    ∧ (finaliseDefPermutationInModule
        [⟨1, SchemaType.uintT 8⟩, ⟨1, SchemaType.fieldT⟩]).1 = [] := by
  constructor
  · exact ⟨⟨1, SchemaType.fieldT⟩, by decide, rfl⟩
  · decide

/-- C6 amended: `finaliseDefPermutationInModule` reports `fixed-width
type required` exactly when the first source's type is not fixed-width
(later sources are not checked); every target binding receives its paired
source's type and multiplier; and `incompatible length multiplier` is
reported at position `i ≥ 1` exactly when that source's multiplier
differs from the reference multiplier (the first source's multiplier when
it is fixed-width, 0 otherwise). -/
theorem def_permutation_finalise_amended :
    ∀ sources : List ColumnBinding,
      (finaliseDefPermutationInModule sources).2 = sources
      ∧ (PermError.fixedWidthRequired 0 ∈ (finaliseDefPermutationInModule sources).1
          ↔ ∃ s0, sources.head? = some s0 ∧ s0.dataType.AsUint = none)
      ∧ (∀ i s, sources.get? i = some s → 1 ≤ i →
          (PermError.incompatibleMultiplier i ∈ (finaliseDefPermutationInModule sources).1
            ↔ s.multiplier ≠ refMultiplier sources)) := by
  intro sources
  refine ⟨permGo_targets sources 0 0, ?_, ?_⟩
  · cases sources with
    | nil => simp [finaliseDefPermutationInModule, permGo]
    | cons s0 rest =>
      show PermError.fixedWidthRequired 0 ∈ (permGo 0 0 (s0 :: rest)).1 ↔ _
      by_cases h0 : s0.dataType.AsUint = none
      · constructor
        · intro _
          exact ⟨s0, rfl, h0⟩
        · intro _
          simp only [permGo, if_pos h0]
          exact List.mem_cons_self _ _
      · constructor
        · intro hmem
          simp only [permGo, if_neg h0] at hmem
          exact absurd hmem (permGo_no_fixedWidth rest 0 s0.multiplier 0)
        · rintro ⟨s, hs, hu⟩
          rw [List.head?_cons, Option.some.injEq] at hs
          subst hs
          exact absurd hu h0
  · intro i s hget hi
    cases sources with
    | nil => simp at hget
    | cons s0 rest =>
      show PermError.incompatibleMultiplier i ∈ (permGo 0 0 (s0 :: rest)).1 ↔ _
      have hget' : rest.get? (i - 1) = some s := by
        have hidx : i = (i - 1) + 1 := by omega
        rw [hidx] at hget
        simpa using hget
      by_cases h0 : s0.dataType.AsUint = none
      · have hmem := permGo_incompatible_mem rest 0 0 i
        simp only [Nat.zero_add] at hmem
        have hrf : refMultiplier (s0 :: rest) = 0 := by
          simp [refMultiplier, h0]
        rw [hrf]
        simp only [permGo, if_pos h0, List.mem_cons]
        constructor
        · rintro (heq | hmem')
          · simp at heq
          · obtain ⟨s', hs', -, hsm⟩ := hmem.mp hmem'
            rw [hget'] at hs'
            rw [Option.some.injEq] at hs'
            subst hs'
            exact hsm
        · intro hsm
          exact Or.inr (hmem.mpr ⟨s, hget', hi, hsm⟩)
      · have hmem := permGo_incompatible_mem rest 0 s0.multiplier i
        simp only [Nat.zero_add] at hmem
        have hrf : refMultiplier (s0 :: rest) = s0.multiplier := by
          simp [refMultiplier, h0]
        rw [hrf]
        simp only [permGo, if_neg h0]
        rw [hmem]
        constructor
        · rintro ⟨s', hs', -, hsm⟩
          rw [hget'] at hs'
          rw [Option.some.injEq] at hs'
          subst hs'
          exact hsm
        · intro hsm
          exact ⟨s, hget', hi, hsm⟩

/-- Witness for C6 at concrete sources `[⟨2, u8⟩, ⟨3, u8⟩]`: targets copy
the sources, and position 1 reports an incompatible multiplier exactly
because `3 ≠ 2`. -/
theorem def_permutation_finalise_amended_witness :
    (finaliseDefPermutationInModule
        [⟨2, SchemaType.uintT 8⟩, ⟨3, SchemaType.uintT 8⟩]).2
      = [⟨2, SchemaType.uintT 8⟩, ⟨3, SchemaType.uintT 8⟩]
    ∧ (([⟨2, SchemaType.uintT 8⟩, ⟨3, SchemaType.uintT 8⟩] : List ColumnBinding).get? 1
        = some ⟨3, SchemaType.uintT 8⟩)
    ∧ (PermError.incompatibleMultiplier 1 ∈
        (finaliseDefPermutationInModule
          [⟨2, SchemaType.uintT 8⟩, ⟨3, SchemaType.uintT 8⟩]).1
        ↔ (⟨3, SchemaType.uintT 8⟩ : ColumnBinding).multiplier
            ≠ refMultiplier [⟨2, SchemaType.uintT 8⟩, ⟨3, SchemaType.uintT 8⟩]) := by
  have t := def_permutation_finalise_amended
    [⟨2, SchemaType.uintT 8⟩, ⟨3, SchemaType.uintT 8⟩]
  exact ⟨t.1, by decide, t.2.2 1 ⟨3, SchemaType.uintT 8⟩ (by decide) (by decide)⟩

/-- Helper: the join of a type with itself. -/
theorem Join_self (t : SchemaType) : Join t t = t := by
  cases t with
  | uintT n => simp [Join]
  | fieldT => rfl

/-- Helper: the interleave loop folds `Join` over the source types,
whatever errors arise. -/
theorem interleaveGo_type (l : List ColumnBinding) :
    ∀ i m dt, (interleaveGo i m dt l).2
      = l.foldl (fun t b => Join t b.dataType) dt := by
  induction l with
  | nil => intro i m dt; rfl
  | cons b rest ih =>
    intro i m dt
    by_cases h : b.multiplier ≠ m
    · simp only [interleaveGo, if_pos h, List.foldl_cons]
      exact ih (i + 1) m (Join dt b.dataType)
    · simp only [interleaveGo, if_neg h, List.foldl_cons]
      exact ih (i + 1) m (Join dt b.dataType)

/-- Helper: the interleave loop reports no error exactly when every
remaining source has the reference multiplier. -/
theorem interleaveGo_errs_nil (l : List ColumnBinding) :
    ∀ i m dt, ((interleaveGo i m dt l).1 = [] ↔
      ∀ b ∈ l, b.multiplier = m) := by
  induction l with
  | nil => intro i m dt; simp [interleaveGo]
  | cons b rest ih =>
    intro i m dt
    by_cases h : b.multiplier ≠ m
    · simp only [interleaveGo, if_pos h]
      constructor
      · intro hc
        exact absurd hc (List.cons_ne_nil _ _)
      · intro hall
        exact absurd (hall b (List.mem_cons_self b rest)) h
    · push_neg at h
      have hcond : ¬(b.multiplier ≠ m) := by simp [h]
      simp only [interleaveGo, if_neg hcond]
      rw [ih (i + 1) m (Join dt b.dataType)]
      constructor
      · intro hall x hx
        rcases List.mem_cons.mp hx with hx | hx
        · rw [hx]
          exact h
        · exact hall x hx
      · intro hall x hx
        exact hall x (List.mem_cons_of_mem _ hx)

/-- C8: `finaliseDefInterleavedInModule` with sources `s0 :: rest`
reports no error exactly when all sources share the first source's length
multiplier `m`, and in that case the target binding receives multiplier
`m × k` (for `k` sources) and the `Join` of all source types. -/
theorem def_interleaved_finalise_spec :
    ∀ (target s0 : ColumnBinding) (rest : List ColumnBinding),
      ((finaliseDefInterleavedInModule target (s0 :: rest)).1 = []
        ↔ ∀ b ∈ (s0 :: rest), b.multiplier = s0.multiplier)
      ∧ ((∀ b ∈ (s0 :: rest), b.multiplier = s0.multiplier) →
          (finaliseDefInterleavedInModule target (s0 :: rest)).2 =
            ⟨s0.multiplier * (s0 :: rest).length,
              rest.foldl (fun t b => Join t b.dataType) s0.dataType⟩) := by
  intro target s0 rest
  have herr := interleaveGo_errs_nil rest 1 s0.multiplier (Join s0.dataType s0.dataType)
  have hmem : (∀ b ∈ rest, b.multiplier = s0.multiplier)
      ↔ ∀ b ∈ (s0 :: rest), b.multiplier = s0.multiplier := by
    constructor
    · intro hall x hx
      rcases List.mem_cons.mp hx with hx | hx
      · rw [hx]
      · exact hall x hx
    · intro hall x hx
      exact hall x (List.mem_cons_of_mem _ hx)
  have hfst : (finaliseDefInterleavedInModule target (s0 :: rest)).1
      = (interleaveGo 1 s0.multiplier (Join s0.dataType s0.dataType) rest).1 := by
    by_cases h : (interleaveGo 1 s0.multiplier (Join s0.dataType s0.dataType) rest).1 = []
    · simp only [finaliseDefInterleavedInModule, if_pos h]
    · simp only [finaliseDefInterleavedInModule, if_neg h]
  constructor
  · rw [hfst, herr, hmem]
  · intro hall
    have h : (interleaveGo 1 s0.multiplier (Join s0.dataType s0.dataType) rest).1 = [] :=
      herr.mpr (hmem.mpr hall)
    simp only [finaliseDefInterleavedInModule, if_pos h]
    rw [interleaveGo_type rest 1 s0.multiplier (Join s0.dataType s0.dataType),
      Join_self]

/-- Witness for C8 at concrete sources `[⟨2, u8⟩, ⟨2, u16⟩]`: no error,
and the target receives multiplier `2 × 2 = 4` and type `u16`. -/
theorem def_interleaved_finalise_spec_witness :
    (∀ b ∈ ([⟨2, SchemaType.uintT 8⟩, ⟨2, SchemaType.uintT 16⟩] : List ColumnBinding),
      b.multiplier = (⟨2, SchemaType.uintT 8⟩ : ColumnBinding).multiplier)
    ∧ (finaliseDefInterleavedInModule ⟨7, SchemaType.fieldT⟩
        [⟨2, SchemaType.uintT 8⟩, ⟨2, SchemaType.uintT 16⟩]).2 =
        ⟨(⟨2, SchemaType.uintT 8⟩ : ColumnBinding).multiplier *
          ([⟨2, SchemaType.uintT 8⟩, ⟨2, SchemaType.uintT 16⟩] : List ColumnBinding).length,
          ([⟨2, SchemaType.uintT 16⟩] : List ColumnBinding).foldl
            (fun t b => Join t b.dataType) (SchemaType.uintT 8)⟩ := by
  have t := def_interleaved_finalise_spec ⟨7, SchemaType.fieldT⟩
    ⟨2, SchemaType.uintT 8⟩ [⟨2, SchemaType.uintT 16⟩]
  exact ⟨by decide, t.2 (by decide)⟩
/-- Helper: `int(k)` is `k` itself below `2 ^ 63`. -/
theorem toInt64_small (n : Nat) (h : n < 2 ^ 63) : toInt64 n = (n : Int) := by
  unfold toInt64
  rw [Nat.mod_eq_of_lt (by omega)]
  rw [if_pos h]

/-- Helper: the row loop of `HoldsGlobally` finds a failure exactly when
some of the `n` rows starting at `k` tests false. -/
theorem holdsOnRows_isSome (handle : String) (c : Testable) :
    ∀ (n k : Nat), (holdsOnRows handle c k n).isSome = true ↔
      ∃ j, j < n ∧ c.testAt (toInt64 (k + j)) = false := by
  intro n
  induction n with
  | zero =>
    intro k
    simp [holdsOnRows]
  | succ n ih =>
    intro k
    by_cases ht : c.testAt (toInt64 k) = false
    · simp only [holdsOnRows, HoldsLocally, if_pos ht, Option.isSome_some]
      constructor
      · intro _
        exact ⟨0, by omega, by simpa using ht⟩
      · intro _
        trivial
    · simp only [holdsOnRows, HoldsLocally, if_neg ht]
      rw [ih (k + 1)]
      constructor
      · rintro ⟨j, hj, hja⟩
        refine ⟨j + 1, by omega, ?_⟩
        have hidx : k + (j + 1) = k + 1 + j := by omega
        rw [hidx]
        exact hja
      · rintro ⟨j, hj, hja⟩
        match j with
        | 0 =>
          rw [Nat.add_zero] at hja
          exact absurd hja ht
        | Nat.succ j' =>
          refine ⟨j', by omega, ?_⟩
          have hidx : k + 1 + j' = k + (j' + 1) := by omega
          rw [hidx]
          exact hja

/-- C1: a vanishing constraint with a nil (global) domain fails on a
trace exactly when its body evaluates to non-zero at some row of
`[bounds.Start, height - bounds.End)`; all other rows — including the
whole module when `bounds.End ≥ height` — are skipped silently. -/
theorem vanishing_global_accepts_spec (handle : String) (body : Int → F)
    (bounds : Bounds) (height : Nat) (h : height < 2 ^ 63) :
    ((VanishingConstraint.Accepts
        ⟨handle, none, ZeroTest.ofBody body bounds⟩ height).isSome = true)
      ↔ ∃ r : Nat, bounds.Start ≤ r ∧ r < height - bounds.End ∧ body r ≠ 0 := by
  show (HoldsGlobally handle (ZeroTest.ofBody body bounds) height).isSome = true ↔ _
  unfold HoldsGlobally
  simp only [ZeroTest.ofBody]
  by_cases hE : bounds.End < height
  · rw [if_pos hE]
    rw [holdsOnRows_isSome]
    constructor
    · rintro ⟨j, hj, ht⟩
      refine ⟨bounds.Start + j, by omega, by omega, ?_⟩
      rw [toInt64_small _ (by omega)] at ht
      simpa using ht
    · rintro ⟨r, hr1, hr2, hb⟩
      refine ⟨r - bounds.Start, by omega, ?_⟩
      have hidx : bounds.Start + (r - bounds.Start) = r := by omega
      rw [hidx, toInt64_small _ (by omega)]
      simpa using hb
  · rw [if_neg hE]
    simp only [Option.isSome_none]
    constructor
    · intro hc
      exact absurd hc (by simp)
    · rintro ⟨r, hr1, hr2, hb⟩
      omega

/-- Witness for C1 at a concrete constraint: body `r ↦ (r = 1 ? 1 : 0)`,
bounds `[0, 0]`, height 3 — the check reports a failure, and indeed row 1
evaluates non-zero. -/
theorem vanishing_global_accepts_spec_witness :
    (3 : Nat) < 2 ^ 63
    ∧ (((VanishingConstraint.Accepts
          ⟨"c", none,
            ZeroTest.ofBody (fun r : Int => if r = 1 then (1 : F) else 0) ⟨0, 0⟩⟩
          3).isSome = true)
        ↔ ∃ r : Nat, 0 ≤ r ∧ r < 3 - 0 ∧
            (if (r : Int) = 1 then (1 : F) else 0) ≠ 0) :=
  ⟨by decide,
    vanishing_global_accepts_spec "c" (fun r : Int => if r = 1 then (1 : F) else 0)
      ⟨0, 0⟩ 3 (by decide)⟩

/-- C3: a vanishing constraint with a non-nil domain `i` is checked at
exactly one row — `i` for `i ≥ 0` and `height + i` for `i < 0` (the
wrapping `uint64` arithmetic and the `int` reinterpretation cancel within
the 64-bit range) — and fails exactly when the body is non-zero there. -/
theorem vanishing_local_accepts_spec (handle : String) (body : Int → F)
    (bounds : Bounds) (height : Nat) (i : Int)
    (h1 : height < 2 ^ 63) (h2 : -(2 ^ 63) ≤ i) (h3 : i < 2 ^ 63) :
    ((VanishingConstraint.Accepts
        ⟨handle, some i, ZeroTest.ofBody body bounds⟩ height).isSome = true)
      ↔ body (if i < 0 then (height : Int) + i else i) ≠ 0 := by
  have hrow : toInt64 (if i < 0 then (height + uint64OfInt i) % 2 ^ 64
        else uint64OfInt i)
      = if i < 0 then (height : Int) + i else i := by
    unfold toInt64 uint64OfInt
    by_cases hi : i < 0
    · rw [if_pos hi, if_pos hi]
      split_ifs with hlt
      · omega
      · omega
    · rw [if_neg hi, if_neg hi]
      split_ifs with hlt
      · omega
      · omega
  show (HoldsLocally
      (if i < 0 then (height + uint64OfInt i) % 2 ^ 64 else uint64OfInt i)
      handle (ZeroTest.ofBody body bounds)).isSome = true ↔ _
  unfold HoldsLocally
  rw [hrow]
  by_cases hb : body (if i < 0 then (height : Int) + i else i) = 0
  · simp [ZeroTest.ofBody, hb]
  · simp [ZeroTest.ofBody, hb]

/-- Witness for C3 at a concrete constraint: height 3 and domain `-1`
check row `3 + (-1) = 2`, where the body `r ↦ (r = 2 ? 5 : 0)` is
non-zero, so the constraint fails. -/
theorem vanishing_local_accepts_spec_witness :
    (3 : Nat) < 2 ^ 63
    ∧ -(2 ^ 63) ≤ (-1 : Int)
    ∧ (-1 : Int) < 2 ^ 63
    ∧ (((VanishingConstraint.Accepts
          ⟨"c", some (-1),
            ZeroTest.ofBody (fun r : Int => if r = 2 then (5 : F) else 0) ⟨0, 0⟩⟩
          3).isSome = true)
        ↔ (if (if (-1 : Int) < 0 then ((3 : Nat) : Int) + (-1) else (-1)) = 2
            then (5 : F) else 0) ≠ 0) :=
  ⟨by decide, by decide, by decide,
    vanishing_local_accepts_spec "c" (fun r : Int => if r = 2 then (5 : F) else 0)
      ⟨0, 0⟩ 3 (-1) (by decide) (by decide) (by decide)⟩

/-- Helper: iterating passes from `init` and then shifting the base is
the same as shifting the base first. -/
theorem iterFin_shift (decls : List Decl) (init : List Nat) :
    ∀ k, iterFin decls init (k + 1) = iterFin decls (passDecls decls init).fin k := by
  intro k
  induction k with
  | zero => rfl
  | succ k ih =>
    show (passDecls decls (iterFin decls init (k + 1))).fin
      = (passDecls decls (iterFin decls (passDecls decls init).fin k)).fin
    rw [ih]

/-- Helper: shifting the base of `passAt` by one pass. -/
theorem passAt_shift (decls : List Decl) (init : List Nat) (k : Nat) :
    passAt decls init (k + 1) = passAt decls (passDecls decls init).fin k := by
  unfold passAt
  rw [iterFin_shift]

/-- Helper: one unfolding of the finalisation loop in the continuing
state. -/
theorem finLoop_step (decls : List Decl) (n : Nat) (fin : List Nat)
    (inc : Option Nat) :
    finLoop decls (n + 1) fin true false inc
      = finLoop decls n (passDecls decls fin).fin (passDecls decls fin).changed
          (passDecls decls fin).complete
          (match (passDecls decls fin).incomplete with
           | some x => some x
           | none => inc) := by
  simp [finLoop]

/-- Helper: the loop exits successfully once `complete` holds with fuel
remaining. -/
theorem finLoop_stop_none (decls : List Decl) (n : Nat) (fin : List Nat)
    (ch : Bool) (inc : Option Nat) :
    finLoop decls (n + 1) fin ch true inc = none := by
  simp [finLoop]

/-- Helper: the loop reports `cyclic declaration` when a pass made no
progress while declarations remain, with fuel remaining. -/
theorem finLoop_stuck_cyclic (decls : List Decl) (n : Nat) (fin : List Nat)
    (inc : Option Nat) :
    finLoop decls (n + 1) fin false false inc
      = some (ResolveError.cyclicDeclaration inc) := by
  simp [finLoop]

/-- Helper: if pass `k` (counting from 0) completes the finalisation and
at least `k + 2` units of fuel remain, the loop returns no error. -/
theorem finLoop_complete_none (decls : List Decl) :
    ∀ (k : Nat) (fin : List Nat) (fuel : Nat) (inc : Option Nat),
      k + 1 < fuel →
      (∀ j < k, (passAt decls fin j).changed = true ∧
        (passAt decls fin j).complete = false) →
      (passAt decls fin k).complete = true →
      finLoop decls fuel fin true false inc = none := by
  intro k
  induction k with
  | zero =>
    intro fin fuel inc hfuel hpre hcomp
    obtain ⟨f, rfl⟩ : ∃ f, fuel = f + 2 := ⟨fuel - 2, by omega⟩
    rw [finLoop_step]
    have hcomp' : (passDecls decls fin).complete = true := hcomp
    rw [hcomp']
    exact finLoop_stop_none decls f _ _ _
  | succ k ih =>
    intro fin fuel inc hfuel hpre hcomp
    obtain ⟨f, rfl⟩ : ∃ f, fuel = f + 1 := ⟨fuel - 1, by omega⟩
    rw [finLoop_step]
    have h0 := hpre 0 (by omega)
    have hch : (passDecls decls fin).changed = true := h0.1
    have hco : (passDecls decls fin).complete = false := h0.2
    rw [hch, hco]
    apply ih (passDecls decls fin).fin f _ (by omega)
    · intro j hj
      rw [← passAt_shift]
      exact hpre (j + 1) (by omega)
    · rw [← passAt_shift]
      exact hcomp

/-- Helper: if pass `k` makes no progress while declarations remain and
at least `k + 2` units of fuel remain, the loop reports exactly one
`cyclic declaration` error. -/
theorem finLoop_noprogress_cyclic (decls : List Decl) :
    ∀ (k : Nat) (fin : List Nat) (fuel : Nat) (inc : Option Nat),
      k + 1 < fuel →
      (∀ j < k, (passAt decls fin j).changed = true ∧
        (passAt decls fin j).complete = false) →
      (passAt decls fin k).changed = false →
      (passAt decls fin k).complete = false →
      ∃ inc', finLoop decls fuel fin true false inc
        = some (ResolveError.cyclicDeclaration inc') := by
  intro k
  induction k with
  | zero =>
    intro fin fuel inc hfuel hpre hch hco
    obtain ⟨f, rfl⟩ : ∃ f, fuel = f + 2 := ⟨fuel - 2, by omega⟩
    rw [finLoop_step]
    have hch' : (passDecls decls fin).changed = false := hch
    have hco' : (passDecls decls fin).complete = false := hco
    rw [hch', hco']
    exact ⟨_, finLoop_stuck_cyclic decls f _ _⟩
  | succ k ih =>
    intro fin fuel inc hfuel hpre hch hco
    obtain ⟨f, rfl⟩ : ∃ f, fuel = f + 1 := ⟨fuel - 1, by omega⟩
    rw [finLoop_step]
    have h0 := hpre 0 (by omega)
    have hch0 : (passDecls decls fin).changed = true := h0.1
    have hco0 : (passDecls decls fin).complete = false := h0.2
    rw [hch0, hco0]
    apply ih (passDecls decls fin).fin f _ (by omega)
    · intro j hj
      rw [← passAt_shift]
      exact hpre (j + 1) (by omega)
    · rw [← passAt_shift]
      exact hch
    · rw [← passAt_shift]
      exact hco

/-- Helper: if every pass up to the fuel bound keeps making progress with
declarations remaining, the loop exhausts its counter and reports exactly
one `unable to complete resolution` error. -/
theorem finLoop_cap_incomplete (decls : List Decl) :
    ∀ (k : Nat) (fin : List Nat) (inc : Option Nat),
      (∀ j < k, (passAt decls fin j).changed = true ∧
        (passAt decls fin j).complete = false) →
      ∃ inc', finLoop decls k fin true false inc
        = some (ResolveError.incompleteResolution inc') := by
  intro k
  induction k with
  | zero =>
    intro fin inc _
    exact ⟨inc, rfl⟩
  | succ k ih =>
    intro fin inc hpre
    rw [finLoop_step]
    have h0 := hpre 0 (by omega)
    have hch0 : (passDecls decls fin).changed = true := h0.1
    have hco0 : (passDecls decls fin).complete = false := h0.2
    rw [hch0, hco0]
    apply ih (passDecls decls fin).fin
    intro j hj
    rw [← passAt_shift]
    exact hpre (j + 1) (by omega)

/-- C2 counterexample: the declarations `[⟨[3],[4]⟩, …, ⟨[],[0]⟩]` form
an acyclic dependency chain (witnessed by the topological order
`[4,3,2,1,0]`), yet the resolver does not resolve them without error: the
four-pass iteration cap is exhausted first. -/
theorem resolver_acyclic_counterexample :
    topoWitness [⟨[3], [4]⟩, ⟨[2], [3]⟩, ⟨[1], [2]⟩, ⟨[0], [1]⟩, ⟨[], [0]⟩]
        [] [4, 3, 2, 1, 0] = true
    ∧ finaliseDeclarationsInModule
        [⟨[3], [4]⟩, ⟨[2], [3]⟩, ⟨[1], [2]⟩, ⟨[0], [1]⟩, ⟨[], [0]⟩] [] ≠ none := by
  decide

/-- C2 amended: the finalisation loop terminates when all declarations
are finalised, when a pass makes no progress, or when the four-pass
counter is exhausted.  An input whose declarations all become finalised
within the first three passes resolves without error; a no-progress pass
with declarations remaining (within the first three) yields exactly one
`cyclic declaration` error at a not-finalised declaration; and an input
still progressing after four passes yields exactly one
`unable to complete resolution` error, even when acyclic. -/
theorem resolver_finalisation_amended :
    ∀ (decls : List Decl) (init : List Nat),
      (∀ k, k ≤ 2 → reachPass decls init k →
        (passAt decls init k).complete = true →
        finaliseDeclarationsInModule decls init = none)
      ∧ (∀ k, k ≤ 2 → reachPass decls init k →
          (passAt decls init k).changed = false →
          (passAt decls init k).complete = false →
          ∃ inc, finaliseDeclarationsInModule decls init
            = some (ResolveError.cyclicDeclaration inc))
      ∧ (reachPass decls init 4 →
          ∃ inc, finaliseDeclarationsInModule decls init
            = some (ResolveError.incompleteResolution inc)) := by
  intro decls init
  refine ⟨?_, ?_, ?_⟩
  · intro k hk hreach hcomp
    exact finLoop_complete_none decls k init 4 none (by omega) hreach hcomp
  · intro k hk hreach hch hco
    exact finLoop_noprogress_cyclic decls k init 4 none (by omega) hreach hch hco
  · intro hreach
    exact finLoop_cap_incomplete decls 4 init none hreach

/-- Witness for C2 at three concrete declaration lists: a forward chain
resolves in one pass; a two-cycle is reported as a cyclic declaration;
and a reverse five-chain exhausts the counter. -/
theorem resolver_finalisation_amended_witness :
    (reachPass [⟨[], [0]⟩, ⟨[0], [1]⟩] [] 0
      ∧ (passAt [⟨[], [0]⟩, ⟨[0], [1]⟩] [] 0).complete = true
      ∧ finaliseDeclarationsInModule [⟨[], [0]⟩, ⟨[0], [1]⟩] [] = none)
    ∧ (reachPass [⟨[1], [0]⟩, ⟨[0], [1]⟩] [] 0
      ∧ (passAt [⟨[1], [0]⟩, ⟨[0], [1]⟩] [] 0).changed = false
      ∧ (passAt [⟨[1], [0]⟩, ⟨[0], [1]⟩] [] 0).complete = false
      ∧ ∃ inc, finaliseDeclarationsInModule [⟨[1], [0]⟩, ⟨[0], [1]⟩] []
          = some (ResolveError.cyclicDeclaration inc))
    ∧ (reachPass [⟨[3], [4]⟩, ⟨[2], [3]⟩, ⟨[1], [2]⟩, ⟨[0], [1]⟩, ⟨[], [0]⟩] [] 4
      ∧ ∃ inc, finaliseDeclarationsInModule
          [⟨[3], [4]⟩, ⟨[2], [3]⟩, ⟨[1], [2]⟩, ⟨[0], [1]⟩, ⟨[], [0]⟩] []
          = some (ResolveError.incompleteResolution inc)) := by
  refine ⟨⟨by decide, by decide, ?_⟩, ⟨by decide, by decide, by decide, ?_⟩,
    ⟨by decide, ?_⟩⟩
  · exact (resolver_finalisation_amended [⟨[], [0]⟩, ⟨[0], [1]⟩] []).1 0
      (by decide) (by decide) (by decide)
  · exact (resolver_finalisation_amended [⟨[1], [0]⟩, ⟨[0], [1]⟩] []).2.1 0
      (by decide) (by decide) (by decide) (by decide)
  · exact (resolver_finalisation_amended
      [⟨[3], [4]⟩, ⟨[2], [3]⟩, ⟨[1], [2]⟩, ⟨[0], [1]⟩, ⟨[], [0]⟩] []).2.2 (by decide)

/-- Helper: `acpList` is the elementwise constant propagation. -/
theorem acpList_eq_map :
    ∀ es : List Expr, acpList es = es.map applyConstantPropagation := by
  intro es
  induction es with
  | nil => rfl
  | cons e es ih =>
    simp only [acpList, List.map_cons]
    rw [ih]

/-- Helper: a list of constants is recognised by `allConstants`. -/
theorem allConstants_map_const :
    ∀ cs : List F, allConstants (cs.map Expr.Constant) = some cs := by
  intro cs
  induction cs with
  | nil => rfl
  | cons c cs ih =>
    simp only [List.map_cons, allConstants, ih, Option.map_some']

/-- Helper: `allConstants` only succeeds on lists of constants. -/
theorem allConstants_some_eq :
    ∀ (rs : List Expr) (cs : List F), allConstants rs = some cs →
      rs = cs.map Expr.Constant := by
  intro rs
  induction rs with
  | nil =>
    intro cs h
    simp only [allConstants, Option.some.injEq] at h
    rw [← h]
    rfl
  | cons r rest ih =>
    intro cs h
    match r, h with
    | Expr.Constant c, h =>
      simp only [allConstants] at h
      match hrest : allConstants rest with
      | none => rw [hrest] at h; cases h
      | some cs' =>
        rw [hrest] at h
        simp only [Option.map_some', Option.some.injEq] at h
        rw [← h, List.map_cons]
        rw [ih cs' hrest]

/-- Helper: a left fold of multiplication over a list containing 0 is 0. -/
theorem foldl_mul_zero :
    ∀ (cs : List F) (a : F), 0 ∈ cs → cs.foldl (fun x c => x * c) a = 0 := by
  intro cs
  induction cs with
  | nil =>
    intro a h
    cases h
  | cons c rest ih =>
    intro a h
    rcases List.mem_cons.mp h with hc | hc
    · subst hc
      simp only [List.foldl_cons, mul_zero]
      clear h ih
      induction rest generalizing a with
      | nil => simp
      | cons d rest' ih' =>
        simp only [List.foldl_cons, zero_mul]
        exact ih' 0
    · exact ih (a * c) hc

/-- C5 counterexample: a `Sub` whose arguments begin with a constant
prefix but are not all constants is left with the prefix unfolded, not
collapsed to a single constant as the claim states. -/
theorem mir_constant_folding_sub_counterexample :
    applyConstantPropagation
        (Expr.Sub [Expr.Constant 5, Expr.Constant 2, Expr.ColumnAccess 0 0])
      = Expr.Sub [Expr.Constant 5, Expr.Constant 2, Expr.ColumnAccess 0 0]
    ∧ Expr.Sub [Expr.Constant 5, Expr.Constant 2, Expr.ColumnAccess 0 0]
      ≠ Expr.Sub [Expr.Constant 3, Expr.ColumnAccess 0 0] := by
  constructor
  · simp [applyConstantPropagation, acpList, applyConstantPropagationSub,
      allConstants]
  · intro h
    simp at h

/-- C5 amended: post-lowering constant folding collapses an `Add` or
`Mul` whose arguments all fold to constants to the single running sum or
product; a `Mul` with any argument folding to the constant 0 collapses to
the constant 0; a `Sub` collapses to a single constant only when all its
arguments fold to constants (a partial constant prefix is left in place,
with each argument folded individually); `Exp` of a constant folds to the
constant power; and `Normalise (Const c)` folds to 0 when `c = 0` and 1
otherwise. -/
theorem mir_constant_folding_amended :
    (∀ (es : List Expr) (cs : List F), acpList es = cs.map Expr.Constant →
        applyConstantPropagation (Expr.Add es)
          = Expr.Constant (cs.foldl (fun a c => a + c) 0))
    ∧ (∀ (es : List Expr) (cs : List F), acpList es = cs.map Expr.Constant →
        applyConstantPropagation (Expr.Mul es)
          = Expr.Constant (cs.foldl (fun a c => a * c) 1))
    ∧ (∀ (es : List Expr) (e : Expr), e ∈ es →
        applyConstantPropagation e = Expr.Constant 0 →
        applyConstantPropagation (Expr.Mul es) = Expr.Constant 0)
    ∧ (∀ (es : List Expr) (c : F) (cs : List F),
        acpList es = (c :: cs).map Expr.Constant →
        applyConstantPropagation (Expr.Sub es)
          = Expr.Constant (cs.foldl (fun a x => a - x) c))
    ∧ (∀ es : List Expr, (∀ cs : List F, acpList es ≠ cs.map Expr.Constant) →
        applyConstantPropagation (Expr.Sub es) = Expr.Sub (acpList es))
    ∧ (∀ (e : Expr) (c : F) (pow : Nat),
        applyConstantPropagation e = Expr.Constant c →
        applyConstantPropagation (Expr.Exp e pow) = Expr.Constant (c ^ pow))
    ∧ (∀ c : F, applyConstantPropagation (Expr.Normalise (Expr.Constant c))
        = Expr.Constant (if c = 0 then 0 else 1)) := by
  refine ⟨?_, ?_, ?_, ?_, ?_, ?_, ?_⟩
  · intro es cs h
    simp only [applyConstantPropagation, h, applyConstantPropagationAdd,
      allConstants_map_const]
  · intro es cs h
    simp only [applyConstantPropagation, h, applyConstantPropagationMul]
    by_cases hz : (cs.map Expr.Constant).any isZeroConstant
    · rw [if_pos hz]
      obtain ⟨e, he, hze⟩ := List.any_eq_true.mp hz
      obtain ⟨c, hc, rfl⟩ := List.mem_map.mp he
      have hc0 : c = 0 := by
        simpa [isZeroConstant] using hze
      subst hc0
      rw [foldl_mul_zero cs 1 hc]
    · rw [if_neg hz, allConstants_map_const]
  · intro es e he h0
    simp only [applyConstantPropagation, applyConstantPropagationMul]
    have hz : (acpList es).any isZeroConstant = true := by
      apply List.any_eq_true.mpr
      refine ⟨applyConstantPropagation e, ?_, ?_⟩
      · rw [acpList_eq_map]
        exact List.mem_map_of_mem _ he
      · rw [h0]
        simp [isZeroConstant]
    rw [if_pos hz]
  · intro es c cs h
    simp only [applyConstantPropagation, h, applyConstantPropagationSub,
      allConstants_map_const]
  · intro es h
    simp only [applyConstantPropagation]
    match han : allConstants (acpList es) with
    | none =>
      simp only [applyConstantPropagationSub, han]
    | some cs =>
      exact absurd (allConstants_some_eq _ _ han) (h cs)
  · intro e c pow h
    simp only [applyConstantPropagation, h, applyConstantPropagationExp]
  · intro c
    simp only [applyConstantPropagation, applyConstantPropagationNorm]

/-- Witness for C5 at concrete expressions: `(+ 2 3)` and `(* 2 3)` fold
to constants, a zero factor collapses a product, `(- 5 2)` folds, a
non-constant `Sub` argument list is only folded elementwise, `(^ 2 3)`
folds, and `(~ 0)` folds to 0. -/
theorem mir_constant_folding_amended_witness :
    (acpList [Expr.Constant 2, Expr.Constant 3]
        = ([2, 3] : List F).map Expr.Constant
      ∧ applyConstantPropagation (Expr.Add [Expr.Constant 2, Expr.Constant 3])
        = Expr.Constant (([2, 3] : List F).foldl (fun a c => a + c) 0))
    ∧ (applyConstantPropagation (Expr.Mul [Expr.Constant 2, Expr.Constant 3])
        = Expr.Constant (([2, 3] : List F).foldl (fun a c => a * c) 1))
    ∧ (Expr.Constant 0 ∈ [Expr.ColumnAccess 0 0, Expr.Constant 0]
      ∧ applyConstantPropagation (Expr.Constant 0) = Expr.Constant 0
      ∧ applyConstantPropagation
          (Expr.Mul [Expr.ColumnAccess 0 0, Expr.Constant 0]) = Expr.Constant 0)
    ∧ (applyConstantPropagation (Expr.Sub [Expr.Constant 5, Expr.Constant 2])
        = Expr.Constant (([2] : List F).foldl (fun a x => a - x) 5))
    ∧ ((∀ cs : List F, acpList [Expr.ColumnAccess 1 0] ≠ cs.map Expr.Constant)
      ∧ applyConstantPropagation (Expr.Sub [Expr.ColumnAccess 1 0])
        = Expr.Sub (acpList [Expr.ColumnAccess 1 0]))
    ∧ (applyConstantPropagation (Expr.Exp (Expr.Constant 2) 3)
        = Expr.Constant ((2 : F) ^ 3))
    ∧ (applyConstantPropagation (Expr.Normalise (Expr.Constant 0))
        = Expr.Constant (if (0 : F) = 0 then 0 else 1)) := by
  have t := mir_constant_folding_amended
  have h1 : acpList [Expr.Constant 2, Expr.Constant 3]
      = ([2, 3] : List F).map Expr.Constant := by
    simp [acpList, applyConstantPropagation]
  have h4 : acpList [Expr.Constant 5, Expr.Constant 2]
      = (((5 : F) :: [2]) : List F).map Expr.Constant := by
    simp [acpList, applyConstantPropagation]
  have h5 : ∀ cs : List F, acpList [Expr.ColumnAccess 1 0] ≠ cs.map Expr.Constant := by
    intro cs
    cases cs with
    | nil => simp [acpList]
    | cons c cs' => simp [acpList, applyConstantPropagation]
  have h3a : Expr.Constant 0 ∈ [Expr.ColumnAccess 0 0, Expr.Constant 0] :=
    List.mem_cons_of_mem _ (List.mem_cons_self _ _)
  have h3b : applyConstantPropagation (Expr.Constant (0 : F)) = Expr.Constant 0 := by
    simp [applyConstantPropagation]
  have h6 : applyConstantPropagation (Expr.Constant (2 : F)) = Expr.Constant 2 := by
    simp [applyConstantPropagation]
  exact ⟨⟨h1, t.1 _ _ h1⟩, t.2.1 _ _ h1, ⟨h3a, h3b, t.2.2.1 _ _ h3a h3b⟩,
    t.2.2.2.1 _ 5 [2] h4, ⟨h5, t.2.2.2.2.1 _ h5⟩, t.2.2.2.2.2.1 _ 2 3 h6,
    t.2.2.2.2.2.2 0⟩

/-- Helper: swapping two positions of a list preserves membership. -/
theorem listSwap_mem {α : Type} (l l' : List α) (i j : Nat)
    (h : listSwap l i j = some l') : ∀ x, x ∈ l' ↔ x ∈ l := by
  unfold listSwap at h
  cases hi : l.get? i with
  | none => rw [hi] at h; simp at h
  | some a =>
    cases hj : l.get? j with
    | none => rw [hi, hj] at h; simp at h
    | some b =>
      rw [hi, hj] at h
      simp only [Option.some.injEq] at h
      subst h
      obtain ⟨hilen, hia⟩ := List.get?_eq_some.mp hi
      obtain ⟨hjlen, hjb⟩ := List.get?_eq_some.mp hj
      have hia' : l[i] = a := hia
      have hjb' : l[j] = b := hjb
      intro x
      constructor
      · intro hx
        rcases List.mem_or_eq_of_mem_set hx with hx1 | hx1
        · rcases List.mem_or_eq_of_mem_set hx1 with hx2 | hx2
          · exact hx2
          · subst hx2
            rw [← hjb']
            exact List.getElem_mem hjlen
        · subst hx1
          rw [← hia']
          exact List.getElem_mem hilen
      · intro hx
        obtain ⟨n, hn, hxn⟩ := List.mem_iff_getElem.mp hx
        by_cases hni : n = i
        · subst hni
          apply List.mem_iff_getElem.mpr
          refine ⟨j, by simpa [List.length_set] using hjlen, ?_⟩
          simp only [List.getElem_set_self]
          rw [← hia']
          exact hxn
        · by_cases hnj : n = j
          · subst hnj
            apply List.mem_iff_getElem.mpr
            refine ⟨i, by simpa [List.length_set] using hilen, ?_⟩
            simp only [List.getElem_set_ne hni, List.getElem_set_self]
            rw [← hjb']
            exact hxn
          · apply List.mem_iff_getElem.mpr
            refine ⟨n, by simpa [List.length_set] using hn, ?_⟩
            simp only [List.getElem_set_ne (Ne.symm hnj),
              List.getElem_set_ne (Ne.symm hni)]
            exact hxn

/-- Helper: swapping two modules preserves membership in the module
table. -/
theorem traceSwapModules_mem (tr tr' : Trace) (i j : Nat)
    (h : traceSwapModules tr i j = some tr') :
    ∀ x, x ∈ tr'.modules ↔ x ∈ tr.modules := by
  unfold traceSwapModules at h
  cases hsw : listSwap tr.modules i j with
  | none => rw [hsw] at h; simp at h
  | some ms =>
    rw [hsw] at h
    simp only [Option.some.injEq] at h
    subst h
    intro x
    exact listSwap_mem tr.modules ms i j hsw x

/-- Helper: no module of the table carries the name exactly when the
search loop fails. -/
theorem modulesIndexOfGo_eq_none (name : String) :
    ∀ (mods : List TraceModule) (i : Nat),
      (∀ tm ∈ mods, tm.name ≠ name) → modulesIndexOfGo name mods i = none := by
  intro mods
  induction mods with
  | nil => intro i _; rfl
  | cons tm rest ih =>
    intro i habs
    have hname : ¬ (tm.name = name) := habs tm (List.mem_cons_self tm rest)
    simp only [modulesIndexOfGo, if_neg hname]
    exact ih (i + 1) (fun x hx => habs x (List.mem_cons_of_mem _ hx))

/-- Helper: module alignment preserves the modules already in the trace
(it only swaps and appends). -/
theorem alignModules_mem :
    ∀ (mods : List String) (modIndex : Nat) (tr tr' : Trace),
      alignModules mods modIndex tr = some tr' →
      ∀ x ∈ tr.modules, x ∈ tr'.modules := by
  intro mods
  induction mods with
  | nil =>
    intro modIndex tr tr' h x hx
    simp only [alignModules, Option.some.injEq] at h
    subst h
    exact hx
  | cons m rest ih =>
    intro modIndex tr tr' h x hx
    simp only [alignModules] at h
    split at h
    · exact absurd h (by simp)
    · next traceMod hget =>
      split at h
      · exact ih _ _ _ h x hx
      · split at h
        · split at h
          · next tr2 hsw =>
            apply ih _ _ _ h x
            rw [traceSwapModules_mem _ _ _ _ hsw x]
            exact List.mem_append_left _ hx
          · exact absurd h (by simp)
        · split at h
          · exact absurd h (by simp)
          · split at h
            · next tr2 hsw =>
              apply ih _ _ _ h x
              rw [traceSwapModules_mem _ _ _ _ hsw x]
              exact hx
            · exact absurd h (by simp)

/-- Helper: a schema module missing from the trace is added as an empty
module of height 0 whenever module alignment completes. -/
theorem align_missing_added :
    ∀ (mods : List String) (modIndex : Nat) (tr tr' : Trace) (m : String),
      alignModules mods modIndex tr = some tr' → m ∈ mods →
      (∀ tm ∈ tr.modules, tm.name ≠ m) →
      (⟨m, 0⟩ : TraceModule) ∈ tr'.modules := by
  intro mods
  induction mods with
  | nil =>
    intro _ _ _ _ _ hm _
    cases hm
  | cons m0 rest ih =>
    intro modIndex tr tr' m h hm habs
    simp only [alignModules] at h
    split at h
    · exact absurd h (by simp)
    · next traceMod hget =>
      by_cases hm0 : m = m0
      · subst hm0
        have htm : traceMod ∈ tr.modules := by
          obtain ⟨hlen, hget'⟩ := List.get?_eq_some.mp hget
          rw [← hget']
          exact List.get_mem tr.modules _ _
        have hname : ¬ (traceMod.name = m) := habs traceMod htm
        rw [if_neg hname] at h
        have hnone : modulesIndexOf tr.modules m = none :=
          modulesIndexOfGo_eq_none m tr.modules 0 habs
        split at h
        · split at h
          · next tr2 hsw =>
            apply alignModules_mem rest _ tr2 tr' h
            rw [traceSwapModules_mem _ _ _ _ hsw]
            exact List.mem_append_right _ (List.mem_singleton.mpr rfl)
          · exact absurd h (by simp)
        · next k heq =>
          rw [hnone] at heq
          exact absurd heq (by simp)
      · have hmrest : m ∈ rest := by
          rcases List.mem_cons.mp hm with h' | h'
          · exact absurd h' hm0
          · exact h'
        split at h
        · exact ih _ _ _ _ h hmrest habs
        · split at h
          · split at h
            · next tr2 hsw =>
              apply ih _ _ _ _ h hmrest
              intro tm htm
              rw [traceSwapModules_mem _ _ _ _ hsw] at htm
              rcases List.mem_append.mp htm with h1 | h1
              · exact habs tm h1
              · rw [List.mem_singleton] at h1
                subst h1
                intro hc
                exact hm0 hc.symm
            · exact absurd h (by simp)
          · split at h
            · exact absurd h (by simp)
            · split at h
              · next tr2 hsw =>
                apply ih _ _ _ _ h hmrest
                intro tm htm
                rw [traceSwapModules_mem _ _ _ _ hsw] at htm
                exact habs tm htm
              · exact absurd h (by simp)

/-- C10: a schema module with no corresponding trace module does not fail
alignment: whenever module alignment completes, the missing module has
been silently added as an empty module of height 0; and every alignment
error is produced by the column phase (for missing or unknown columns),
never by the module phase. -/
theorem align_missing_module_spec :
    (∀ (expand : Bool) (tr : Trace) (schema : AlignSchema) (e : AlignError),
        alignWith expand tr schema = AlignOutcome.fail e →
        ∃ tr', alignModules schema.modules 0 tr = some tr' ∧
          alignColumns schema.modules tr' tr.columns.length 0
            (schemaColumns expand schema) = AlignOutcome.fail e)
    ∧ (∀ (mods : List String) (tr tr' : Trace) (m : String),
        alignModules mods 0 tr = some tr' → m ∈ mods →
        (∀ tm ∈ tr.modules, tm.name ≠ m) →
        (⟨m, 0⟩ : TraceModule) ∈ tr'.modules) := by
  constructor
  · intro expand tr schema e h
    unfold alignWith at h
    split at h
    · exact absurd h (by simp)
    · next tr' htr' =>
      exact ⟨tr', htr', h⟩
  · intro mods tr tr' m
    exact align_missing_added mods 0 tr tr' m

/-- Witness for C10 at a concrete schema and trace: the prelude module
`""` is declared in the schema but missing from the trace; alignment adds
it with height 0; and a trace whose only column has the wrong name fails
with a missing-column error produced by the column phase. -/
theorem align_missing_module_spec_witness :
    (alignWith true ⟨[⟨"m", 2⟩], [⟨0, "Y"⟩]⟩ ⟨["", "m"], [⟨false, [(1, "X")]⟩]⟩
        = AlignOutcome.fail (AlignError.missingColumn "m" "X")
      ∧ ∃ tr', alignModules ["", "m"] 0 ⟨[⟨"m", 2⟩], [⟨0, "Y"⟩]⟩ = some tr' ∧
          alignColumns ["", "m"] tr' 1 0
            (schemaColumns true ⟨["", "m"], [⟨false, [(1, "X")]⟩]⟩)
            = AlignOutcome.fail (AlignError.missingColumn "m" "X"))
    ∧ (alignModules ["", "m"] 0 ⟨[⟨"m", 2⟩], [⟨0, "X"⟩]⟩
        = some ⟨[⟨"", 0⟩, ⟨"m", 2⟩], [⟨1, "X"⟩]⟩
      ∧ ("" : String) ∈ ["", "m"]
      ∧ (∀ tm ∈ (⟨[⟨"m", 2⟩], [⟨0, "X"⟩]⟩ : Trace).modules, tm.name ≠ "")
      ∧ (⟨"", 0⟩ : TraceModule) ∈
          (⟨[⟨"", 0⟩, ⟨"m", 2⟩], [⟨1, "X"⟩]⟩ : Trace).modules) := by
  constructor
  · refine ⟨by decide, ?_⟩
    exact align_missing_module_spec.1 true ⟨[⟨"m", 2⟩], [⟨0, "Y"⟩]⟩
      ⟨["", "m"], [⟨false, [(1, "X")]⟩]⟩ (AlignError.missingColumn "m" "X")
      (by decide)
  · refine ⟨by decide, by decide, by decide, ?_⟩
    exact align_missing_module_spec.2 ["", "m"] ⟨[⟨"m", 2⟩], [⟨0, "X"⟩]⟩
      ⟨[⟨"", 0⟩, ⟨"m", 2⟩], [⟨1, "X"⟩]⟩ "" (by decide) (by decide) (by decide)

end GoCorset
